import Mathlib

/-!
Verification development for the task-orchestration layer of the repository
(`src/services/agent_orchestrator.py`).  The orchestrator's data model and
operations are shallowly embedded as executable Lean definitions:

* Python dict-based task records become the `OrchTask` structure; the opaque
  `data` payload is never inspected by the orchestrator logic and is omitted.
* `uuid.uuid4()` identifiers are modelled by a fresh natural-number counter
  `next_id` (capturing the uniqueness contract of uuid4).
* `datetime.now()` timestamps are modelled by a logical clock `clock : Nat`
  that advances with each orchestrator step.
* `asyncio.Queue` is a FIFO `List OrchTask` (put appends at the back, get takes
  the front); the `active_tasks` dict is an association list in insertion
  order; `completed_tasks` is a `List OrchTask`.
* The cooperative-concurrency interleaving is a small-step relation `Step`:
  a `submit_task` call, one iteration of the `_task_processor` loop
  (dequeue + select + dispatch), or the completion of one spawned
  `_execute_task` coroutine (whose interaction with the agent's
  `execute_task` is abstracted by an `ExecOutcome` oracle).  The agent pool
  read by `_select_agent` is a parameter of the dispatch step.
* Worker-level `execute_task` bodies (which call external collaborator
  services) are embedded per agent class with the collaborator behaviour
  abstracted as an `Except String ExecResult` oracle; the busy-flag
  discipline (`try`/`finally`) is what matters and is modelled exactly.
-/

/-- OrchTask lifecycle statuses, from the `TaskStatus` enum. -/
inductive TaskStatus where
  | pending
  | in_progress
  | completed
  | failed
  | cancelled
deriving DecidableEq

/-- OrchTask priorities, from the `TaskPriority` enum (accepted but unused by the
FIFO queue). -/
inductive TaskPriority where
  | critical
  | high
  | medium
  | low
deriving DecidableEq

/-- A task record, mirroring the dict built in `AgentOrchestrator.submit_task`
and mutated by `_task_processor` / `_execute_task`.  The worker result dict is
abstracted to its `success` flag. -/
structure OrchTask where
  id : Nat
  type : String
  priority : TaskPriority
  required_agent : Option String
  created_at : Nat
  status : TaskStatus
  assigned_agent : Option String := none
  started_at : Option Nat := none
  completed_at : Option Nat := none
  result : Option Bool := none
  error : Option String := none
deriving DecidableEq

/-- The per-agent state the orchestrator reads and the agent mutates:
`name`, `is_busy`, `current_task` and the performance counters. -/
structure Agent where
  name : String
  is_busy : Bool
  tasks_completed : Nat
  tasks_failed : Nat
  current_task : Option Nat := none
deriving DecidableEq

/-- The `system_metrics` dict of the orchestrator (timestamps omitted). -/
structure SystemMetrics where
  total_tasks : Nat
  completed_tasks : Nat
  failed_tasks : Nat
deriving DecidableEq

/-- Orchestrator-owned mutable state: queue, registries, metrics, plus the
logical clock and the fresh-id counter modelling `datetime.now` / `uuid4`. -/
structure OrchState where
  queue : List OrchTask
  active_tasks : List (Nat × OrchTask)
  completed_tasks : List OrchTask
  system_metrics : SystemMetrics
  next_id : Nat
  clock : Nat
deriving DecidableEq

/-- The initial orchestrator state from `AgentOrchestrator.__init__`. -/
def initState : OrchState :=
  { queue := []
    active_tasks := []
    completed_tasks := []
    system_metrics := { total_tasks := 0, completed_tasks := 0, failed_tasks := 0 }
    next_id := 0
    clock := 0 }

/-- OrchTask types routed to the template agent in `_select_agent`. -/
def templateTaskTypes : List String :=
  [ "search_templates", "analyze_template", "recommend_templates", "categorize_templates" ]

/-- OrchTask types routed to the server agent in `_select_agent`. -/
def serverTaskTypes : List String :=
  [ "import_template", "export_workflow", "activate_workflow", "deactivate_workflow",
    "get_workflows", "monitor_system" ]

/-- OrchTask types routed to the coordinator agent in `_select_agent`. -/
def coordinatorTaskTypes : List String :=
  [ "coordinate_agents", "plan_execution" ]

/-- OrchTask types routed to the monitor agent in `_select_agent`. -/
def monitorTaskTypes : List String :=
  [ "system_health", "performance_analysis" ]

/-- Python truthiness of `task.get('required_agent')`: a pin is set when the
field is present and not the empty string. -/
def requiredAgentSet (t : OrchTask) : Bool :=
  match t.required_agent with
  | some s => s ≠ ""
  | none => false

/-- Idle agents of the pool, in pool (dict-value) order: the
`available_agents` list comprehension of `_select_agent`. -/
def idleAgents (pool : List (String × Agent)) : List Agent :=
  (pool.map Prod.snd).filter (fun a => !a.is_busy)

/-- Python `max(available_agents, key=lambda a: tasks_completed)`: left fold
keeping the earlier element on ties. -/
def maxByCompleted (a : Agent) (rest : List Agent) : Agent :=
  rest.foldl (fun best x => if x.tasks_completed > best.tasks_completed then x else best) a

/-- Embedding of `AgentOrchestrator._select_agent`: pinned agent first
(dict lookup, unconditional), then the static task-type table, then the
busiest-idle fallback; `none` when all agents are busy. -/
def selectAgent (pool : List (String × Agent)) (t : OrchTask) : Option Agent :=
  if requiredAgentSet t then
    pool.lookup (t.required_agent.getD "")
  else if t.type ∈ templateTaskTypes then
    pool.lookup "template"
  else if t.type ∈ serverTaskTypes then
    pool.lookup "server"
  else if t.type ∈ coordinatorTaskTypes then
    pool.lookup "coordinator"
  else if t.type ∈ monitorTaskTypes then
    pool.lookup "monitor"
  else
    match idleAgents pool with
    | [] => none
    | a :: rest => some (maxByCompleted a rest)

/-- The fresh task record built by `submit_task`. -/
def newTask (s : OrchState) (ty : String) (prio : TaskPriority)
    (req : Option String) : OrchTask :=
  { id := s.next_id
    type := ty
    priority := prio
    required_agent := req
    created_at := s.clock
    status := TaskStatus.pending }

/-- Embedding of `AgentOrchestrator.submit_task`: enqueue a fresh PENDING
task and increment the `total_tasks` metric. -/
def submitStep (s : OrchState) (ty : String) (prio : TaskPriority)
    (req : Option String) : OrchState :=
  { s with
    queue := s.queue ++ [newTask s ty prio req]
    system_metrics :=
      { s.system_metrics with total_tasks := s.system_metrics.total_tasks + 1 }
    next_id := s.next_id + 1
    clock := s.clock + 1 }

/-- The routing-failure record produced by `_task_processor` when
`_select_agent` returns no agent. -/
def routingFailed (t : OrchTask) : OrchTask :=
  { t with status := TaskStatus.failed, error := some "No suitable agent found" }

/-- The record placed into `active_tasks` by `_task_processor` on dispatch. -/
def dispatchedRecord (s : OrchState) (t : OrchTask) (a : Agent) : OrchTask :=
  { t with
    status := TaskStatus.in_progress
    assigned_agent := some a.name
    started_at := some s.clock }

/-- One iteration of the `_task_processor` loop with a nonempty queue: pop the
FIFO head, select an agent against the pool read at dispatch time; on failure
append the task directly to completed history (no trim), otherwise mark it
IN_PROGRESS and insert it into the active registry. -/
def dispatchStep (pool : List (String × Agent)) (s : OrchState) : OrchState :=
  match s.queue with
  | [] => s
  | t :: rest =>
    match selectAgent pool t with
    | none =>
      { s with
        queue := rest
        completed_tasks := s.completed_tasks ++ [routingFailed t]
        clock := s.clock + 1 }
    | some a =>
      { s with
        queue := rest
        active_tasks := s.active_tasks ++ [(t.id, dispatchedRecord s t a)]
        clock := s.clock + 1 }

/-- Outcome of the awaited `agent.execute_task(task)` call inside
`_execute_task`: either a result dict (abstracted to its success flag) or an
exception escaping into the coroutine. -/
inductive ExecOutcome where
  | ok (success : Bool)
  | exn (msg : String)
deriving DecidableEq

/-- History trim of `_execute_task`: keep the most recent 1000 entries when
the list exceeds 1000. -/
def trimHistory (l : List OrchTask) : List OrchTask :=
  if l.length > 1000 then l.drop (l.length - 1000) else l

/-- The terminal record written by `_execute_task` when the agent call
returns a result. -/
def finishedOk (s : OrchState) (t : OrchTask) (success : Bool) : OrchTask :=
  { t with
    result := some success
    completed_at := some s.clock
    status := if success then TaskStatus.completed else TaskStatus.failed }

/-- The terminal record written by the `except` branch of `_execute_task`. -/
def finishedExn (s : OrchState) (t : OrchTask) (msg : String) : OrchTask :=
  { t with
    status := TaskStatus.failed
    error := some msg
    completed_at := some s.clock }

/-- Completion of one spawned `_execute_task` coroutine for task `t`: update
the record, bump the outcome metric, delete the id from the active registry
and append to completed history.  Only the normal path trims the history;
the exception path appends without trimming. -/
def finishStep (s : OrchState) (t : OrchTask) (o : ExecOutcome) : OrchState :=
  match o with
  | ExecOutcome.ok success =>
    { s with
      active_tasks := s.active_tasks.eraseP (fun p => p.1 == t.id)
      completed_tasks := trimHistory (s.completed_tasks ++ [finishedOk s t success])
      system_metrics :=
        if success then
          { s.system_metrics with
            completed_tasks := s.system_metrics.completed_tasks + 1 }
        else
          { s.system_metrics with
            failed_tasks := s.system_metrics.failed_tasks + 1 }
      clock := s.clock + 1 }
  | ExecOutcome.exn msg =>
    { s with
      active_tasks := s.active_tasks.eraseP (fun p => p.1 == t.id)
      completed_tasks := s.completed_tasks ++ [finishedExn s t msg]
      system_metrics :=
        { s.system_metrics with failed_tasks := s.system_metrics.failed_tasks + 1 }
      clock := s.clock + 1 }

/-- Whether a task id is registered in the active registry. -/
def inActiveB (s : OrchState) (tid : Nat) : Bool :=
  s.active_tasks.any (fun p => p.1 == tid)

/-- Whether a task id occurs in the completed history. -/
def inCompletedB (s : OrchState) (tid : Nat) : Bool :=
  s.completed_tasks.any (fun u => u.id == tid)

/-- A worker result dict, abstracted to its success flag and error text. -/
structure ExecResult where
  success : Bool
  error : Option String := none
deriving DecidableEq

/-- Embedding of `Agent.update_performance`: bump the counter matching the
result's success flag. -/
def updatePerformance (a : Agent) (r : ExecResult) : Agent :=
  if r.success then { a with tasks_completed := a.tasks_completed + 1 }
  else { a with tasks_failed := a.tasks_failed + 1 }

/-- The agent state inside the `try` block of `TemplateAgent.execute_task` /
`ServerAgent.execute_task` after `is_busy = True; current_task = task`. -/
def execDuring (a : Agent) (t : OrchTask) : Agent :=
  { a with is_busy := true, current_task := some t.id }

/-- Embedding of `TemplateAgent.execute_task`.  The `try` body (thinking call
plus per-type handler, both reaching external collaborators) is abstracted by
`body`; the `except` branch converts an exception into a failure result; the
`finally` branch clears `is_busy` and `current_task` on both paths. -/
def templateAgentExec (a : Agent) (t : OrchTask)
    (body : Except String ExecResult) : Agent × ExecResult :=
  let during := execDuring a t
  let r :=
    match body with
    | Except.ok r => r
    | Except.error e => { success := false, error := some e }
  let a' := updatePerformance during r
  ({ a' with is_busy := false, current_task := none }, r)

/-- Embedding of `ServerAgent.execute_task`: same busy-flag and performance
discipline as `TemplateAgent.execute_task` with the server handler table. -/
def serverAgentExec (a : Agent) (t : OrchTask)
    (body : Except String ExecResult) : Agent × ExecResult :=
  let during := execDuring a t
  let r :=
    match body with
    | Except.ok r => r
    | Except.error e => { success := false, error := some e }
  let a' := updatePerformance during r
  ({ a' with is_busy := false, current_task := none }, r)

/-- Embedding of `CoordinatorAgent.execute_task`: returns a success dict and
does not touch `is_busy`, `current_task` or the performance counters. -/
def coordinatorAgentExec (a : Agent) (_t : OrchTask) : Agent × ExecResult :=
  (a, { success := true })

/-- Embedding of `MonitorAgent.execute_task`: returns a success dict and does
not touch `is_busy`, `current_task` or the performance counters. -/
def monitorAgentExec (a : Agent) (_t : OrchTask) : Agent × ExecResult :=
  (a, { success := true })

/-- One interleaved step of the orchestrator: a `submit_task` call, one
`_task_processor` iteration (against the pool state read at that moment), or
the completion of the `_execute_task` coroutine of a task currently in the
active registry. -/
inductive Step : OrchState → OrchState → Prop where
  | submit (s : OrchState) (ty : String) (prio : TaskPriority) (req : Option String) :
      Step s (submitStep s ty prio req)
  | dispatch (s : OrchState) (pool : List (String × Agent)) :
      Step s (dispatchStep pool s)
  | finish (s : OrchState) (t : OrchTask) (o : ExecOutcome)
      (hmem : (t.id, t) ∈ s.active_tasks) :
      Step s (finishStep s t o)

/-- States reachable from the freshly constructed orchestrator. -/
inductive Reachable : OrchState → Prop where
  | refl : Reachable initState
  | tail {s s' : OrchState} : Reachable s → Step s s' → Reachable s'

/-- All task records held anywhere in the orchestrator state. -/
def allTasks (s : OrchState) : List OrchTask :=
  s.queue ++ s.active_tasks.map Prod.snd ++ s.completed_tasks

/-- The ids of all task records held anywhere in the orchestrator state. -/
def stateIds (s : OrchState) : List Nat :=
  (allTasks s).map OrchTask.id

/-- Terminal task statuses. -/
def isTerminal : TaskStatus → Bool
  | TaskStatus.completed => true
  | TaskStatus.failed => true
  | _ => false

/-- Rank of a status along the lifecycle order
PENDING < IN_PROGRESS < terminal. -/
def statusRank : TaskStatus → Nat
  | TaskStatus.pending => 0
  | TaskStatus.in_progress => 1
  | _ => 2

/-- Structural invariant of reachable orchestrator states. -/
structure OrchInv (s : OrchState) : Prop where
  nodup : (stateIds s).Nodup
  keys : ∀ p ∈ s.active_tasks, p.1 = p.2.id
  qPending : ∀ t ∈ s.queue,
    t.status = TaskStatus.pending ∧ t.assigned_agent = none ∧ t.started_at = none
  aProg : ∀ p ∈ s.active_tasks, p.2.status = TaskStatus.in_progress
  cTerm : ∀ t ∈ s.completed_tasks, isTerminal t.status = true
  fresh : ∀ t ∈ allTasks s, t.id < s.next_id

/-- Submitting permutes the state's ids to the fresh id plus the old ids. -/
lemma stateIds_submit (s : OrchState) (ty : String) (prio : TaskPriority)
    (req : Option String) :
    List.Perm (stateIds (submitStep s ty prio req)) (s.next_id :: stateIds s) := by
  simp only [stateIds, allTasks, submitStep, newTask, List.map_append,
    List.append_assoc, List.map_cons, List.map_nil]
  exact List.perm_middle

/-- The invariant survives a `submit_task` call. -/
lemma inv_submit {s : OrchState} (hs : OrchInv s) (ty : String)
    (prio : TaskPriority) (req : Option String) :
    OrchInv (submitStep s ty prio req) := by
  constructor
  · refine ((stateIds_submit s ty prio req).nodup_iff).2 ?_
    refine List.Nodup.cons ?_ hs.nodup
    intro hmemid
    simp only [stateIds, List.mem_map] at hmemid
    obtain ⟨u, hu, hid⟩ := hmemid
    exact absurd hid (Nat.ne_of_gt (hs.fresh u hu)).symm
  · intro p hp
    exact hs.keys p hp
  · intro t ht
    simp only [submitStep, List.mem_append, List.mem_singleton] at ht
    rcases ht with ht | ht
    · exact hs.qPending t ht
    · subst ht; exact ⟨rfl, rfl, rfl⟩
  · intro p hp
    exact hs.aProg p hp
  · intro t ht
    exact hs.cTerm t ht
  · intro t ht
    simp only [allTasks, submitStep, List.mem_append, List.mem_singleton] at ht
    rcases ht with (ht | ht) | ht
    · rcases ht with ht | ht
      · exact Nat.lt_succ_of_lt (hs.fresh t (by simp [allTasks, ht]))
      · subst ht; exact Nat.lt_succ_self _
    · exact Nat.lt_succ_of_lt (hs.fresh t (by simp [allTasks, ht]))
    · exact Nat.lt_succ_of_lt (hs.fresh t (by simp [allTasks, ht]))

/-- Moving a last element to the front is a permutation. -/
lemma perm_insert_last {α : Type} (a : α) (x y z : List α) :
    List.Perm (x ++ (y ++ (z ++ [a]))) (a :: (x ++ (y ++ z))) := by
  have h : x ++ (y ++ (z ++ [a])) = (x ++ (y ++ z)) ++ [a] := by simp
  rw [h]
  exact List.perm_append_comm

/-- Moving a middle element to the front is a permutation. -/
lemma perm_insert_mid {α : Type} (a : α) (x y z : List α) :
    List.Perm (x ++ ((y ++ [a]) ++ z)) (a :: (x ++ (y ++ z))) := by
  have h1 : x ++ ((y ++ [a]) ++ z) = (x ++ y) ++ a :: z := by simp
  have h2 : a :: (x ++ (y ++ z)) = a :: ((x ++ y) ++ z) := by simp
  rw [h1, h2]
  exact List.perm_middle

/-- Exchanging an erased middle element for an appended last one is a
permutation. -/
lemma perm_erase_insert {α : Type} (a : α) (q u v c : List α) :
    List.Perm ((q ++ (u ++ v)) ++ (c ++ [a])) ((q ++ (u ++ a :: v)) ++ c) := by
  have h1 : (q ++ (u ++ v)) ++ (c ++ [a]) = ((q ++ (u ++ v)) ++ c) ++ [a] := by simp
  have h2 : (q ++ (u ++ a :: v)) ++ c = (q ++ u) ++ a :: (v ++ c) := by simp
  rw [h1, h2]
  refine List.Perm.trans List.perm_append_comm ?_
  show List.Perm (a :: ((q ++ (u ++ v)) ++ c)) ((q ++ u) ++ a :: (v ++ c))
  have h3 : a :: ((q ++ (u ++ v)) ++ c) = a :: ((q ++ u) ++ (v ++ c)) := by simp
  rw [h3]
  exact List.perm_middle.symm

/-- Appending to the last list while removing a front element is a
permutation onto a cons. -/
lemma perm_snoc {α : Type} (a : α) (x z : List α) :
    List.Perm (x ++ (z ++ [a])) (a :: (x ++ z)) := by
  have h : x ++ (z ++ [a]) = (x ++ z) ++ [a] := by simp
  rw [h]
  exact List.perm_append_comm

/-- Appending to the middle list is a permutation onto a cons. -/
lemma perm_snoc_mid {α : Type} (a : α) (x y z : List α) :
    List.Perm ((x ++ (y ++ [a])) ++ z) (a :: ((x ++ y) ++ z)) := by
  have h : (x ++ (y ++ [a])) ++ z = (x ++ y) ++ a :: z := by simp
  rw [h]
  exact List.perm_middle

/-- The invariant survives one `_task_processor` iteration. -/
lemma inv_dispatch {s : OrchState} (hs : OrchInv s) (pool : List (String × Agent)) :
    OrchInv (dispatchStep pool s) := by
  rcases hq : s.queue with _ | ⟨t, rest⟩
  · have he : dispatchStep pool s = s := by
      simp [dispatchStep, hq]
    rw [he]
    exact hs
  have hqmem : t ∈ s.queue := by rw [hq]; exact List.mem_cons_self t rest
  rcases hsel : selectAgent pool t with _ | a
  · have he : dispatchStep pool s =
        { s with
          queue := rest
          completed_tasks := s.completed_tasks ++ [routingFailed t]
          clock := s.clock + 1 } := by
      simp [dispatchStep, hq, hsel]
    rw [he]
    have hperm : List.Perm
        (stateIds { s with
          queue := rest
          completed_tasks := s.completed_tasks ++ [routingFailed t]
          clock := s.clock + 1 })
        (stateIds s) := by
      simp only [stateIds, allTasks, hq, List.map_append, List.map_cons,
        routingFailed, List.cons_append]
      exact perm_snoc t.id _ _
    constructor
    · exact hperm.symm.nodup hs.nodup
    · intro p hp
      exact hs.keys p hp
    · intro u hu
      exact hs.qPending u (by rw [hq]; exact List.mem_cons_of_mem t hu)
    · intro p hp
      exact hs.aProg p hp
    · intro u hu
      simp only [List.mem_append, List.mem_singleton] at hu
      rcases hu with hu | hu
      · exact hs.cTerm u hu
      · subst hu; rfl
    · intro u hu
      simp only [allTasks, List.mem_append, List.mem_singleton] at hu
      rcases hu with (hu | hu) | (hu | hu)
      · exact hs.fresh u (by simp [allTasks, hq, hu, List.mem_cons_of_mem])
      · exact hs.fresh u (by simp [allTasks, hu])
      · exact hs.fresh u (by simp [allTasks, hu])
      · subst hu
        exact hs.fresh t (by simp [allTasks, hqmem])
  · have he : dispatchStep pool s =
        { s with
          queue := rest
          active_tasks := s.active_tasks ++ [(t.id, dispatchedRecord s t a)]
          clock := s.clock + 1 } := by
      simp [dispatchStep, hq, hsel]
    rw [he]
    have hperm : List.Perm
        (stateIds { s with
          queue := rest
          active_tasks := s.active_tasks ++ [(t.id, dispatchedRecord s t a)]
          clock := s.clock + 1 })
        (stateIds s) := by
      simp only [stateIds, allTasks, hq, List.map_append, List.map_cons,
        dispatchedRecord, List.cons_append]
      exact perm_snoc_mid t.id _ _ _
    constructor
    · exact hperm.symm.nodup hs.nodup
    · intro p hp
      simp only [List.mem_append, List.mem_singleton] at hp
      rcases hp with hp | hp
      · exact hs.keys p hp
      · subst hp; rfl
    · intro u hu
      exact hs.qPending u (by rw [hq]; exact List.mem_cons_of_mem t hu)
    · intro p hp
      simp only [List.mem_append, List.mem_singleton] at hp
      rcases hp with hp | hp
      · exact hs.aProg p hp
      · subst hp; rfl
    · intro u hu
      exact hs.cTerm u hu
    · intro u hu
      simp only [allTasks, List.map_append, List.mem_append, List.map_cons,
        List.mem_singleton, List.map_nil] at hu
      rcases hu with (hu | (hu | hu)) | hu
      · exact hs.fresh u (by simp [allTasks, hq, hu, List.mem_cons_of_mem])
      · exact hs.fresh u (by simp [allTasks, hu])
      · subst hu
        exact hs.fresh t (by simp [allTasks, hqmem])
      · exact hs.fresh u (by simp [allTasks, hu])

/-- The history trim keeps a sublist (a suffix) of the history. -/
lemma trimHistory_sublist (l : List OrchTask) : List.Sublist (trimHistory l) l := by
  unfold trimHistory
  split
  · exact List.drop_sublist _ _
  · exact List.Sublist.refl l

/-- Trimming the completed history preserves the invariant. -/
lemma inv_trim {s : OrchState} (hs : OrchInv s) :
    OrchInv { s with completed_tasks := trimHistory s.completed_tasks } := by
  constructor
  · have hsub : List.Sublist
        (stateIds { s with completed_tasks := trimHistory s.completed_tasks })
        (stateIds s) := by
      simp only [stateIds, allTasks, List.map_append]
      exact List.Sublist.append_left
        ((trimHistory_sublist s.completed_tasks).map OrchTask.id) _
    exact hsub.nodup hs.nodup
  · intro p hp
    exact hs.keys p hp
  · intro u hu
    exact hs.qPending u hu
  · intro p hp
    exact hs.aProg p hp
  · intro u hu
    exact hs.cTerm u ((trimHistory_sublist s.completed_tasks).subset hu)
  · intro u hu
    simp only [allTasks, List.mem_append] at hu
    rcases hu with (hu | hu) | hu
    · exact hs.fresh u (by simp [allTasks, hu])
    · exact hs.fresh u (by simp [allTasks, hu])
    · exact hs.fresh u
        (by simp [allTasks, (trimHistory_sublist s.completed_tasks).subset hu])

/-- Core of the finish-step invariant: moving the active entry of `t` to the
end of the completed history (untrimmed) preserves the invariant, for any
metric and clock values. -/
lemma inv_finish_aux {s : OrchState} (hs : OrchInv s) {t : OrchTask}
    {l₁ l₂ : List (Nat × OrchTask)}
    (hdec : s.active_tasks = l₁ ++ (t.id, t) :: l₂)
    (rec : OrchTask) (hrid : rec.id = t.id) (hrt : isTerminal rec.status = true)
    (m : SystemMetrics) (ck : Nat) :
    OrchInv { queue := s.queue, active_tasks := l₁ ++ l₂,
              completed_tasks := s.completed_tasks ++ [rec],
              system_metrics := m, next_id := s.next_id, clock := ck } := by
  have ht_mem : t ∈ allTasks s := by
    simp only [allTasks, List.mem_append]
    refine Or.inl (Or.inr ?_)
    refine List.mem_map.2 ⟨(t.id, t), ?_, rfl⟩
    rw [hdec]
    exact List.mem_append_right _ (List.mem_cons_self _ _)
  have hsubmem : ∀ p : Nat × OrchTask, p ∈ l₁ ++ l₂ → p ∈ s.active_tasks := by
    intro p hp
    rw [hdec]
    simp only [List.mem_append, List.mem_cons] at hp ⊢
    tauto
  constructor
  · have hperm : List.Perm
        (stateIds { queue := s.queue, active_tasks := l₁ ++ l₂,
                    completed_tasks := s.completed_tasks ++ [rec],
                    system_metrics := m, next_id := s.next_id, clock := ck })
        (stateIds s) := by
      simp only [stateIds, allTasks, hdec, List.map_append, List.map_cons,
        List.map_nil, hrid]
      exact perm_erase_insert t.id _ _ _ _
    exact hperm.symm.nodup hs.nodup
  · intro p hp
    exact hs.keys p (hsubmem p hp)
  · intro u hu
    exact hs.qPending u hu
  · intro p hp
    exact hs.aProg p (hsubmem p hp)
  · intro u hu
    simp only [List.mem_append, List.mem_singleton] at hu
    rcases hu with hu | hu
    · exact hs.cTerm u hu
    · subst hu; exact hrt
  · intro u hu
    simp only [allTasks, List.mem_append] at hu
    rcases hu with (hu | hu) | hu
    · exact hs.fresh u (by simp [allTasks, hu])
    · simp only [List.mem_map] at hu
      obtain ⟨p, hp, hpu⟩ := hu
      refine hs.fresh u ?_
      simp only [allTasks, List.mem_append]
      exact Or.inl (Or.inr (List.mem_map.2 ⟨p, hsubmem p hp, hpu⟩))
    · simp only [List.mem_append, List.mem_singleton] at hu
      rcases hu with hu | hu
      · exact hs.fresh u (by simp [allTasks, hu])
      · subst hu
        rw [hrid]
        exact hs.fresh t ht_mem

/-- Under the invariant, deleting an active entry splits the registry around
exactly that entry. -/
lemma active_decomp {s : OrchState} (hs : OrchInv s) {t : OrchTask}
    (hmem : (t.id, t) ∈ s.active_tasks) :
    ∃ l₁ l₂, s.active_tasks = l₁ ++ (t.id, t) :: l₂ ∧
      s.active_tasks.eraseP (fun p => p.1 == t.id) = l₁ ++ l₂ := by
  obtain ⟨a', l₁, l₂, hl₁, hpa', hdec, herase⟩ :=
    List.exists_of_eraseP (p := fun q => q.1 == t.id) hmem (by simp)
  have ha'1 : a'.1 = t.id := by simpa using hpa'
  have ha'mem : a' ∈ s.active_tasks := by
    rw [hdec]
    exact List.mem_append_right _ (List.mem_cons_self _ _)
  have ha'k : a'.1 = a'.2.id := hs.keys a' ha'mem
  have ha'2mem : a'.2 ∈ allTasks s := by
    simp only [allTasks, List.mem_append]
    exact Or.inl (Or.inr (List.mem_map.2 ⟨a', ha'mem, rfl⟩))
  have ht_mem : t ∈ allTasks s := by
    simp only [allTasks, List.mem_append]
    exact Or.inl (Or.inr (List.mem_map.2 ⟨(t.id, t), hmem, rfl⟩))
  have hnd : ((allTasks s).map OrchTask.id).Nodup := hs.nodup
  have ha'2 : a'.2 = t :=
    List.inj_on_of_nodup_map hnd ha'2mem ht_mem (by rw [← ha'k, ha'1])
  have ha' : a' = (t.id, t) := by rw [← ha'1, ← ha'2]
  rw [ha'] at hdec
  exact ⟨l₁, l₂, hdec, herase⟩

/-- The invariant survives the completion of an `_execute_task` coroutine. -/
lemma inv_finish {s : OrchState} (hs : OrchInv s) {t : OrchTask} (o : ExecOutcome)
    (hmem : (t.id, t) ∈ s.active_tasks) : OrchInv (finishStep s t o) := by
  obtain ⟨l₁, l₂, hdec, herase⟩ := active_decomp hs hmem
  cases o with
  | ok success =>
    have hrt : isTerminal (finishedOk s t success).status = true := by
      cases success <;> simp [finishedOk, isTerminal]
    have h1 := inv_trim (inv_finish_aux hs hdec (finishedOk s t success) rfl hrt
      (if success then
        { s.system_metrics with
          completed_tasks := s.system_metrics.completed_tasks + 1 }
      else
        { s.system_metrics with failed_tasks := s.system_metrics.failed_tasks + 1 })
      (s.clock + 1))
    simpa [finishStep, herase] using h1
  | exn msg =>
    have hrt : isTerminal (finishedExn s t msg).status = true := by
      simp [finishedExn, isTerminal]
    have h0 := inv_finish_aux hs hdec (finishedExn s t msg) rfl hrt
      { s.system_metrics with failed_tasks := s.system_metrics.failed_tasks + 1 }
      (s.clock + 1)
    simpa [finishStep, herase] using h0

/-- The invariant holds of the initial state. -/
lemma inv_initState : OrchInv initState := by
  constructor <;> simp [stateIds, allTasks, initState]

/-- The invariant survives every orchestrator step. -/
lemma inv_step {s s' : OrchState} (hs : OrchInv s) (h : Step s s') : OrchInv s' := by
  cases h with
  | submit ty prio req => exact inv_submit hs ty prio req
  | dispatch pool => exact inv_dispatch hs pool
  | finish t o hmem => exact inv_finish hs o hmem

/-- Every reachable state satisfies the structural invariant. -/
lemma reachable_inv {s : OrchState} (h : Reachable s) : OrchInv s := by
  induction h with
  | refl => exact inv_initState
  | tail _ hst ih => exact inv_step ih hst

/-- The terminal record `_execute_task` writes for task `t` under outcome `o`. -/
def finRecord (s : OrchState) (t : OrchTask) : ExecOutcome → OrchTask
  | ExecOutcome.ok b => finishedOk s t b
  | ExecOutcome.exn m => finishedExn s t m

/-- The finish record keeps the task's id. -/
lemma finRecord_id (s : OrchState) (t : OrchTask) (o : ExecOutcome) :
    (finRecord s t o).id = t.id := by
  cases o <;> rfl

/-- The finish record has a terminal status. -/
lemma finRecord_terminal (s : OrchState) (t : OrchTask) (o : ExecOutcome) :
    isTerminal (finRecord s t o).status = true := by
  rcases o with b | m
  · cases b <;> simp [finRecord, finishedOk, isTerminal]
  · simp [finRecord, finishedExn, isTerminal]

/-- Under the invariant a task id determines the task record. -/
lemma unique_by_id {s : OrchState} (hs : OrchInv s) {u v : OrchTask}
    (hu : u ∈ allTasks s) (hv : v ∈ allTasks s) (h : u.id = v.id) : u = v := by
  have hnd : ((allTasks s).map OrchTask.id).Nodup := hs.nodup
  exact List.inj_on_of_nodup_map hnd hu hv h

/-- Unfolding of the active-registry membership test. -/
lemma inActiveB_iff {s : OrchState} {tid : Nat} :
    inActiveB s tid = true ↔ ∃ p ∈ s.active_tasks, p.1 = tid := by
  simp [inActiveB, List.any_eq_true]

/-- Unfolding of the completed-history membership test. -/
lemma inCompletedB_iff {s : OrchState} {tid : Nat} :
    inCompletedB s tid = true ↔ ∃ u ∈ s.completed_tasks, u.id = tid := by
  simp [inCompletedB, List.any_eq_true]

/-- Splitting the state's ids into the three sections. -/
lemma stateIds_eq (s : OrchState) :
    stateIds s = (s.queue.map OrchTask.id ++
      (s.active_tasks.map Prod.snd).map OrchTask.id) ++
      s.completed_tasks.map OrchTask.id := by
  simp [stateIds, allTasks, List.map_append]

/-- Under the invariant no id is in both registry partitions. -/
lemma inv_not_both {s : OrchState} (hs : OrchInv s) (tid : Nat) :
    ¬(inActiveB s tid = true ∧ inCompletedB s tid = true) := by
  rintro ⟨ha, hc⟩
  obtain ⟨p, hp, hp1⟩ := inActiveB_iff.1 ha
  obtain ⟨u, hu, hu1⟩ := inCompletedB_iff.1 hc
  have hpid : p.2.id = tid := by rw [← hs.keys p hp, hp1]
  have hnd : ((s.queue.map OrchTask.id ++
      (s.active_tasks.map Prod.snd).map OrchTask.id) ++
      s.completed_tasks.map OrchTask.id).Nodup := by
    rw [← stateIds_eq]
    exact hs.nodup
  refine List.disjoint_of_nodup_append hnd (a := tid) ?_ ?_
  · refine List.mem_append_right _ ?_
    exact List.mem_map.2 ⟨p.2, List.mem_map.2 ⟨p, hp, rfl⟩, hpid⟩
  · exact List.mem_map.2 ⟨u, hu, hu1⟩

/-- Under the invariant a task still in the queue is in neither partition. -/
lemma inv_queue_neither {s : OrchState} (hs : OrchInv s) {t : OrchTask}
    (ht : t ∈ s.queue) :
    inActiveB s t.id = false ∧ inCompletedB s t.id = false := by
  have hnd : ((s.queue.map OrchTask.id ++
      (s.active_tasks.map Prod.snd).map OrchTask.id) ++
      s.completed_tasks.map OrchTask.id).Nodup := by
    rw [← stateIds_eq]
    exact hs.nodup
  have hqid : t.id ∈ s.queue.map OrchTask.id := List.mem_map.2 ⟨t, ht, rfl⟩
  constructor
  · rw [Bool.eq_false_iff]
    intro ha
    obtain ⟨p, hp, hp1⟩ := inActiveB_iff.1 ha
    have hpid : p.2.id = t.id := by rw [← hs.keys p hp, hp1]
    have hnd2 := hnd.of_append_left
    refine List.disjoint_of_nodup_append hnd2 (a := t.id) hqid ?_
    exact List.mem_map.2 ⟨p.2, List.mem_map.2 ⟨p, hp, rfl⟩, hpid⟩
  · rw [Bool.eq_false_iff]
    intro hc
    obtain ⟨u, hu, hu1⟩ := inCompletedB_iff.1 hc
    refine List.disjoint_of_nodup_append hnd (a := t.id)
      (List.mem_append_left _ hqid) ?_
    exact List.mem_map.2 ⟨u, hu, hu1⟩

/-- Lists at or under the cap are not trimmed. -/
lemma trimHistory_eq_of_le {l : List OrchTask} (h : l.length ≤ 1000) :
    trimHistory l = l := by
  unfold trimHistory
  rw [if_neg]
  omega

/-- Trimming an over-cap list leaves exactly 1000 entries. -/
lemma trimHistory_length_of_gt {l : List OrchTask} (h : l.length > 1000) :
    (trimHistory l).length = 1000 := by
  unfold trimHistory
  rw [if_pos h, List.length_drop]
  omega

/-- The freshly appended record survives the history trim. -/
lemma mem_trimHistory_last (l : List OrchTask) (a : OrchTask) :
    a ∈ trimHistory (l ++ [a]) := by
  unfold trimHistory
  split
  · have hk : (l ++ [a]).length - 1000 ≤ l.length := by
      simp only [List.length_append, List.length_singleton]
      omega
    rw [List.drop_append_of_le_length hk]
    exact List.mem_append_right _ (List.mem_singleton.2 rfl)
  · exact List.mem_append_right _ (List.mem_singleton.2 rfl)

/-- Every record in a finish-step successor is the finish record or an old
record. -/
lemma mem_allTasks_finish {s : OrchState} {t : OrchTask} {o : ExecOutcome}
    {u : OrchTask} (h : u ∈ allTasks (finishStep s t o)) :
    u = finRecord s t o ∨ u ∈ allTasks s := by
  rcases o with b | m
  · simp only [allTasks, finishStep, List.mem_append] at h
    rcases h with (h | h) | h
    · exact Or.inr (by simp [allTasks, h])
    · simp only [List.mem_map] at h
      obtain ⟨p, hp, hpu⟩ := h
      have hp' : p ∈ s.active_tasks := List.mem_of_mem_eraseP hp
      exact Or.inr (by
        simp only [allTasks, List.mem_append]
        exact Or.inl (Or.inr (List.mem_map.2 ⟨p, hp', hpu⟩)))
    · have h' := (trimHistory_sublist _).subset h
      simp only [List.mem_append, List.mem_singleton] at h'
      rcases h' with h' | h'
      · exact Or.inr (by simp [allTasks, h'])
      · exact Or.inl (by rw [h']; rfl)
  · simp only [allTasks, finishStep, List.mem_append, List.mem_singleton] at h
    rcases h with (h | h) | (h | h)
    · exact Or.inr (by simp [allTasks, h])
    · simp only [List.mem_map] at h
      obtain ⟨p, hp, hpu⟩ := h
      have hp' : p ∈ s.active_tasks := List.mem_of_mem_eraseP hp
      exact Or.inr (by
        simp only [allTasks, List.mem_append]
        exact Or.inl (Or.inr (List.mem_map.2 ⟨p, hp', hpu⟩)))
    · exact Or.inr (by simp [allTasks, h])
    · exact Or.inl (by rw [h]; rfl)

/-- Across any step, an id in the active registry stays in one of the two
partitions (it moves to completed exactly when its coroutine finishes). -/
lemma step_active_stays {s s' : OrchState} (h : Step s s') {tid : Nat}
    (ha : inActiveB s tid = true) :
    inActiveB s' tid = true ∨ inCompletedB s' tid = true := by
  cases h with
  | submit ty prio req =>
    exact Or.inl (by simpa [inActiveB, submitStep] using ha)
  | dispatch pool =>
    rcases hq : s.queue with _ | ⟨t, rest⟩
    · left
      simpa [inActiveB, dispatchStep, hq] using ha
    rcases hsel : selectAgent pool t with _ | a
    · left
      simpa [inActiveB, dispatchStep, hq, hsel] using ha
    · left
      simp only [inActiveB, dispatchStep, hq, hsel, List.any_append]
      simp only [inActiveB] at ha
      rw [ha]
      rfl
  | finish t o hmem =>
    by_cases htid : tid = t.id
    · right
      subst htid
      have hmemrec : finRecord s t o ∈ (finishStep s t o).completed_tasks := by
        rcases o with b | m
        · exact mem_trimHistory_last _ _
        · exact List.mem_append_right _ (List.mem_singleton.2 rfl)
      exact inCompletedB_iff.2 ⟨finRecord s t o, hmemrec, finRecord_id s t o⟩
    · left
      obtain ⟨p, hp, hp1⟩ := inActiveB_iff.1 ha
      have hneg : ¬((fun q : Nat × OrchTask => q.1 == t.id) p = true) := by
        simp only [beq_iff_eq]
        rw [hp1]
        exact htid
      have hp' : p ∈ s.active_tasks.eraseP (fun q => q.1 == t.id) :=
        (List.mem_eraseP_of_neg (l := s.active_tasks)
          (p := fun q : Nat × OrchTask => q.1 == t.id) (a := p) hneg).2 hp
      refine inActiveB_iff.2 ⟨p, ?_, hp1⟩
      rcases o with b | m <;> exact hp'

/-- Across any step, an id in the completed history either stays there or the
step trimmed the history down to exactly the 1000-entry cap. -/
lemma step_completed_stays {s s' : OrchState} (h : Step s s') {tid : Nat}
    (hc : inCompletedB s tid = true) :
    inCompletedB s' tid = true ∨ s'.completed_tasks.length = 1000 := by
  cases h with
  | submit ty prio req =>
    exact Or.inl (by simpa [inCompletedB, submitStep] using hc)
  | dispatch pool =>
    rcases hq : s.queue with _ | ⟨t, rest⟩
    · left
      simpa [inCompletedB, dispatchStep, hq] using hc
    rcases hsel : selectAgent pool t with _ | a
    · left
      simp only [inCompletedB, dispatchStep, hq, hsel, List.any_append]
      simp only [inCompletedB] at hc
      rw [hc]
      rfl
    · left
      simpa [inCompletedB, dispatchStep, hq, hsel] using hc
  | finish t o hmem =>
    rcases o with b | m
    · by_cases hlen : (s.completed_tasks ++ [finishedOk s t b]).length > 1000
      · right
        simpa [finishStep] using trimHistory_length_of_gt hlen
      · left
        obtain ⟨u, hu, hu1⟩ := inCompletedB_iff.1 hc
        refine inCompletedB_iff.2 ⟨u, ?_, hu1⟩
        show u ∈ trimHistory (s.completed_tasks ++ [finishedOk s t b])
        rw [trimHistory_eq_of_le (by omega)]
        exact List.mem_append_left _ hu
    · left
      obtain ⟨u, hu, hu1⟩ := inCompletedB_iff.1 hc
      refine inCompletedB_iff.2 ⟨u, ?_, hu1⟩
      exact List.mem_append_left _ hu

/-- Dispatching the queue head lands its id in one of the two partitions. -/
lemma dispatch_establishes {s : OrchState} (pool : List (String × Agent))
    {t : OrchTask} {rest : List OrchTask} (hq : s.queue = t :: rest) :
    inActiveB (dispatchStep pool s) t.id = true ∨
      inCompletedB (dispatchStep pool s) t.id = true := by
  rcases hsel : selectAgent pool t with _ | a
  · right
    refine inCompletedB_iff.2 ⟨routingFailed t, ?_, rfl⟩
    simp [dispatchStep, hq, hsel]
  · left
    refine inActiveB_iff.2 ⟨(t.id, dispatchedRecord s t a), ?_, rfl⟩
    simp [dispatchStep, hq, hsel]

/-- Terminal statuses sit at the top of the lifecycle order. -/
lemma statusRank_of_terminal {st : TaskStatus} (h : isTerminal st = true) :
    statusRank st = 2 := by
  cases st <;> simp [isTerminal] at h ⊢ <;> rfl

/-- The queue head is one of the state's records. -/
lemma queue_head_mem {s : OrchState} {t : OrchTask} {rest : List OrchTask}
    (hq : s.queue = t :: rest) : t ∈ allTasks s := by
  simp only [allTasks, List.mem_append]
  exact Or.inl (Or.inl (by rw [hq]; exact List.mem_cons_self t rest))

/-- An active entry's record is one of the state's records. -/
lemma active_entry_mem {s : OrchState} {t : OrchTask}
    (hmem : (t.id, t) ∈ s.active_tasks) : t ∈ allTasks s := by
  simp only [allTasks, List.mem_append]
  exact Or.inl (Or.inr (List.mem_map.2 ⟨(t.id, t), hmem, rfl⟩))

/-- C5: once a task record reaches a terminal status (COMPLETED or FAILED),
no later orchestrator step changes it; along every step the per-id status
rank is monotone along PENDING, IN_PROGRESS, terminal. -/
theorem c5_status_monotonic {s s' : OrchState} (hr : Reachable s)
    (hstep : Step s s') {u v : OrchTask} (hu : u ∈ allTasks s)
    (hv : v ∈ allTasks s') (hid : v.id = u.id) :
    statusRank u.status ≤ statusRank v.status ∧
      (isTerminal u.status = true → v = u) := by
  have hs := reachable_inv hr
  cases hstep with
  | submit ty prio req =>
    have hv' : v = newTask s ty prio req ∨ v ∈ allTasks s := by
      simp only [allTasks, submitStep, List.mem_append, List.mem_singleton] at hv
      simp only [allTasks, List.mem_append]
      tauto
    rcases hv' with hv' | hv'
    · exfalso
      have hfr : u.id < s.next_id := hs.fresh u hu
      have : v.id = s.next_id := by rw [hv']; rfl
      omega
    · have heq := unique_by_id hs hv' hu hid
      rw [heq]
      exact ⟨Nat.le_refl _, fun _ => rfl⟩
  | dispatch pool =>
    rcases hq : s.queue with _ | ⟨t, rest⟩
    · have he : dispatchStep pool s = s := by simp [dispatchStep, hq]
      rw [he] at hv
      have heq := unique_by_id hs hv hu hid
      rw [heq]
      exact ⟨Nat.le_refl _, fun _ => rfl⟩
    have htq : t ∈ allTasks s := queue_head_mem hq
    have htpend : t.status = TaskStatus.pending :=
      (hs.qPending t (by rw [hq]; exact List.mem_cons_self t rest)).1
    rcases hsel : selectAgent pool t with _ | a
    · have he : dispatchStep pool s =
          { s with
            queue := rest
            completed_tasks := s.completed_tasks ++ [routingFailed t]
            clock := s.clock + 1 } := by
        simp [dispatchStep, hq, hsel]
      rw [he] at hv
      have hv' : v = routingFailed t ∨ v ∈ allTasks s := by
        simp only [allTasks, List.mem_append, List.mem_singleton] at hv
        simp only [allTasks, List.mem_append]
        rcases hv with (hv | hv) | (hv | hv)
        · exact Or.inr (Or.inl (Or.inl (by rw [hq]; exact List.mem_cons_of_mem t hv)))
        · exact Or.inr (Or.inl (Or.inr hv))
        · exact Or.inr (Or.inr hv)
        · exact Or.inl hv
      rcases hv' with hv' | hv'
      · have hut : u = t := by
          refine unique_by_id hs hu htq ?_
          rw [← hid, hv']
          rfl
        rw [hut, htpend]
        constructor
        · rw [hv']
          simp [routingFailed, statusRank]
        · intro hterm
          simp [isTerminal] at hterm
      · have heq := unique_by_id hs hv' hu hid
        rw [heq]
        exact ⟨Nat.le_refl _, fun _ => rfl⟩
    · have he : dispatchStep pool s =
          { s with
            queue := rest
            active_tasks := s.active_tasks ++ [(t.id, dispatchedRecord s t a)]
            clock := s.clock + 1 } := by
        simp [dispatchStep, hq, hsel]
      rw [he] at hv
      have hv' : v = dispatchedRecord s t a ∨ v ∈ allTasks s := by
        simp only [allTasks, List.mem_append, List.map_append, List.map_cons,
          List.map_nil, List.mem_singleton] at hv
        simp only [allTasks, List.mem_append]
        rcases hv with (hv | (hv | hv)) | hv
        · exact Or.inr (Or.inl (Or.inl (by rw [hq]; exact List.mem_cons_of_mem t hv)))
        · exact Or.inr (Or.inl (Or.inr hv))
        · exact Or.inl hv
        · exact Or.inr (Or.inr hv)
      rcases hv' with hv' | hv'
      · have hut : u = t := by
          refine unique_by_id hs hu htq ?_
          rw [← hid, hv']
          rfl
        rw [hut, htpend]
        constructor
        · rw [hv']
          simp [dispatchedRecord, statusRank]
        · intro hterm
          simp [isTerminal] at hterm
      · have heq := unique_by_id hs hv' hu hid
        rw [heq]
        exact ⟨Nat.le_refl _, fun _ => rfl⟩
  | finish t o hmem =>
    have hv' := mem_allTasks_finish hv
    rcases hv' with hv' | hv'
    · have htm : t ∈ allTasks s := active_entry_mem hmem
      have hut : u = t := by
        refine unique_by_id hs hu htm ?_
        rw [← hid, hv', finRecord_id]
      have htprog : t.status = TaskStatus.in_progress := hs.aProg (t.id, t) hmem
      rw [hut, htprog]
      constructor
      · rw [hv', statusRank_of_terminal (finRecord_terminal s t o)]
        simp [statusRank]
      · intro hterm
        simp [isTerminal] at hterm
    · have heq := unique_by_id hs hv' hu hid
      rw [heq]
      exact ⟨Nat.le_refl _, fun _ => rfl⟩

/-- The template agent as constructed at orchestrator startup. -/
def templateAgent0 : Agent :=
  { name := "TemplateAgent", is_busy := false, tasks_completed := 0, tasks_failed := 0 }

/-- The server agent as constructed at orchestrator startup. -/
def serverAgent0 : Agent :=
  { name := "ServerAgent", is_busy := false, tasks_completed := 0, tasks_failed := 0 }

/-- The coordinator agent as constructed at orchestrator startup. -/
def coordinatorAgent0 : Agent :=
  { name := "CoordinatorAgent", is_busy := false, tasks_completed := 0, tasks_failed := 0 }

/-- The monitor agent as constructed at orchestrator startup. -/
def monitorAgent0 : Agent :=
  { name := "MonitorAgent", is_busy := false, tasks_completed := 0, tasks_failed := 0 }

/-- The agent pool as built in `AgentOrchestrator.__init__`, all idle. -/
def startPool : List (String × Agent) :=
  [ ("template", templateAgent0), ("server", serverAgent0),
    ("coordinator", coordinatorAgent0), ("monitor", monitorAgent0) ]

/-- The same pool at a moment when every agent is busy executing. -/
def busyPool : List (String × Agent) :=
  [ ("template", { templateAgent0 with is_busy := true }),
    ("server", { serverAgent0 with is_busy := true }),
    ("coordinator", { coordinatorAgent0 with is_busy := true }),
    ("monitor", { monitorAgent0 with is_busy := true }) ]

/-- State after submitting one `search_templates` task to a fresh
orchestrator. -/
def sampleS1 : OrchState :=
  submitStep initState "search_templates" TaskPriority.medium none

/-- The task record of that submission. -/
def sampleT0 : OrchTask :=
  newTask initState "search_templates" TaskPriority.medium none

/-- State after the dispatcher assigns the sample task to the template
agent. -/
def sampleS2 : OrchState := dispatchStep startPool sampleS1

/-- The in-progress record of the sample task. -/
def sampleT1 : OrchTask := dispatchedRecord sampleS1 sampleT0 templateAgent0

/-- State after the sample task's execution coroutine completes
successfully. -/
def sampleS3 : OrchState := finishStep sampleS2 sampleT1 (ExecOutcome.ok true)

/-- Reachability of the one-submission sample state. -/
lemma sampleS1_reachable : Reachable sampleS1 :=
  Reachable.tail Reachable.refl
    (Step.submit initState "search_templates" TaskPriority.medium none)

/-- Reachability of the dispatched sample state. -/
lemma sampleS2_reachable : Reachable sampleS2 :=
  Reachable.tail sampleS1_reachable (Step.dispatch sampleS1 startPool)

/-- Reachability of the completed sample state. -/
lemma sampleS3_reachable : Reachable sampleS3 :=
  Reachable.tail sampleS2_reachable
    (Step.finish sampleS2 sampleT1 (ExecOutcome.ok true) (by decide))

/-- C1 (amended): in every reachable state no task id is in both registry
partitions; a task still PENDING in the queue is in neither; dispatching the
queue head lands its id in exactly one partition, and from then on every step
keeps the id in a partition until the 1000-entry history trim evicts it. -/
theorem c1_partition_amended {s : OrchState} (hr : Reachable s) :
    (∀ tid : Nat, ¬(inActiveB s tid = true ∧ inCompletedB s tid = true)) ∧
    (∀ t ∈ s.queue, inActiveB s t.id = false ∧ inCompletedB s t.id = false) ∧
    (∀ (pool : List (String × Agent)) (t : OrchTask) (rest : List OrchTask),
      s.queue = t :: rest →
        inActiveB (dispatchStep pool s) t.id = true ∨
          inCompletedB (dispatchStep pool s) t.id = true) ∧
    (∀ s' : OrchState, Step s s' → ∀ tid : Nat,
      (inActiveB s tid = true →
        inActiveB s' tid = true ∨ inCompletedB s' tid = true) ∧
      (inCompletedB s tid = true →
        inCompletedB s' tid = true ∨ s'.completed_tasks.length = 1000)) := by
  have hs := reachable_inv hr
  exact ⟨fun tid => inv_not_both hs tid,
    fun t ht => inv_queue_neither hs ht,
    fun pool t rest hq => dispatch_establishes pool hq,
    fun s' hstep tid =>
      ⟨fun ha => step_active_stays hstep ha,
       fun hc => step_completed_stays hstep hc⟩⟩

/-- C1 counterexample: right after `submit_task` returns, while the task is
still PENDING in the queue, its id is in neither registry partition — not in
exactly one of them as claimed. -/
theorem c1_counterexample :
    (∃ t ∈ sampleS1.queue, t.id = 0 ∧ t.status = TaskStatus.pending) ∧
    inActiveB sampleS1 0 = false ∧ inCompletedB sampleS1 0 = false := by
  decide

/-- C1 witness: the amended theorem applied to the dispatched sample state
and the sample task id. -/
theorem c1_witness :
    ¬(inActiveB sampleS2 0 = true ∧ inCompletedB sampleS2 0 = true) :=
  (c1_partition_amended sampleS2_reachable).1 0

/-- C5 witness: the monotonicity theorem applied to the sample task as its
execution coroutine completes. -/
theorem c5_witness :
    statusRank sampleT1.status ≤
        statusRank (finishedOk sampleS2 sampleT1 true).status ∧
      (isTerminal sampleT1.status = true →
        finishedOk sampleS2 sampleT1 true = sampleT1) :=
  c5_status_monotonic sampleS2_reachable
    (Step.finish sampleS2 sampleT1 (ExecOutcome.ok true) (by decide))
    (by decide) (by decide) (by decide)

/-- C8: when `_select_agent` finds no agent for the dequeued task, the task
is appended to completed history as FAILED with the routing-failure message,
keeping no assigned agent and no start timestamp, without ever entering
IN_PROGRESS and without touching the active registry. -/
theorem c8_routing_failure {s : OrchState} (hr : Reachable s)
    (pool : List (String × Agent)) {t : OrchTask} {rest : List OrchTask}
    (hq : s.queue = t :: rest) (hsel : selectAgent pool t = none) :
    (dispatchStep pool s).completed_tasks =
        s.completed_tasks ++ [routingFailed t] ∧
    (routingFailed t).status = TaskStatus.failed ∧
    (routingFailed t).error = some "No suitable agent found" ∧
    (routingFailed t).assigned_agent = none ∧
    (routingFailed t).started_at = none ∧
    t.status = TaskStatus.pending ∧
    (dispatchStep pool s).active_tasks = s.active_tasks ∧
    inActiveB (dispatchStep pool s) t.id = false := by
  have hs := reachable_inv hr
  have htq : t ∈ s.queue := by rw [hq]; exact List.mem_cons_self t rest
  have hqp := hs.qPending t htq
  have he : dispatchStep pool s =
      { s with
        queue := rest
        completed_tasks := s.completed_tasks ++ [routingFailed t]
        clock := s.clock + 1 } := by
    simp [dispatchStep, hq, hsel]
  refine ⟨by rw [he], rfl, rfl, ?_, ?_, hqp.1, by rw [he], ?_⟩
  · show t.assigned_agent = none
    exact hqp.2.1
  · show t.started_at = none
    exact hqp.2.2
  · rw [he]
    have hqn := (inv_queue_neither hs htq).1
    simpa [inActiveB] using hqn

/-- C8 witness: the theorem applied to a submitted task of unknown type with
every agent busy. -/
theorem c8_witness :
    (dispatchStep busyPool
        (submitStep initState "bogus_type" TaskPriority.medium none)).completed_tasks =
      (submitStep initState "bogus_type" TaskPriority.medium none).completed_tasks ++
        [routingFailed (newTask initState "bogus_type" TaskPriority.medium none)] ∧
    (routingFailed (newTask initState "bogus_type" TaskPriority.medium none)).status =
      TaskStatus.failed ∧
    (routingFailed (newTask initState "bogus_type" TaskPriority.medium none)).error =
      some "No suitable agent found" ∧
    (routingFailed (newTask initState "bogus_type" TaskPriority.medium none)).assigned_agent =
      none ∧
    (routingFailed (newTask initState "bogus_type" TaskPriority.medium none)).started_at =
      none ∧
    (newTask initState "bogus_type" TaskPriority.medium none).status =
      TaskStatus.pending ∧
    (dispatchStep busyPool
        (submitStep initState "bogus_type" TaskPriority.medium none)).active_tasks =
      (submitStep initState "bogus_type" TaskPriority.medium none).active_tasks ∧
    inActiveB (dispatchStep busyPool
        (submitStep initState "bogus_type" TaskPriority.medium none))
      (newTask initState "bogus_type" TaskPriority.medium none).id = false :=
  c8_routing_failure
    (Reachable.tail Reachable.refl
      (Step.submit initState "bogus_type" TaskPriority.medium none))
    busyPool rfl (by decide)

/-- C10: a routing failure leaves the whole `system_metrics` dict unchanged
(in particular `completed_tasks` and `failed_tasks`); `submit_task` bumps
only `total_tasks`; and the outcome counters change only when an
`_execute_task` coroutine of a task in the active registry finishes. -/
theorem c10_metrics_frame :
    (∀ (s : OrchState) (pool : List (String × Agent)) (t : OrchTask)
        (rest : List OrchTask), s.queue = t :: rest → selectAgent pool t = none →
      (dispatchStep pool s).system_metrics = s.system_metrics) ∧
    (∀ (s : OrchState) (ty : String) (prio : TaskPriority) (req : Option String),
      (submitStep s ty prio req).system_metrics.completed_tasks =
          s.system_metrics.completed_tasks ∧
        (submitStep s ty prio req).system_metrics.failed_tasks =
          s.system_metrics.failed_tasks ∧
        (submitStep s ty prio req).system_metrics.total_tasks =
          s.system_metrics.total_tasks + 1) ∧
    (∀ s s' : OrchState, Step s s' →
      (s'.system_metrics.completed_tasks ≠ s.system_metrics.completed_tasks ∨
        s'.system_metrics.failed_tasks ≠ s.system_metrics.failed_tasks) →
      ∃ t o, (t.id, t) ∈ s.active_tasks ∧ s' = finishStep s t o) := by
  refine ⟨?_, ?_, ?_⟩
  · intro s pool t rest hq hsel
    simp [dispatchStep, hq, hsel]
  · intro s ty prio req
    exact ⟨rfl, rfl, rfl⟩
  · intro s s' hstep hne
    cases hstep with
    | submit ty prio req =>
      exfalso
      rcases hne with hne | hne <;> exact hne rfl
    | dispatch pool =>
      exfalso
      rcases hq : s.queue with _ | ⟨t, rest⟩
      · rcases hne with hne | hne <;>
          exact hne (by simp [dispatchStep, hq])
      rcases hsel : selectAgent pool t with _ | a
      · rcases hne with hne | hne <;>
          exact hne (by simp [dispatchStep, hq, hsel])
      · rcases hne with hne | hne <;>
          exact hne (by simp [dispatchStep, hq, hsel])
    | finish t o hmem =>
      exact ⟨t, o, hmem, rfl⟩

/-- C10 witness: dispatching the sample unknown-type task with every agent
busy leaves the metrics dict untouched. -/
theorem c10_witness :
    (dispatchStep busyPool
        (submitStep initState "bogus_type" TaskPriority.medium none)).system_metrics =
      (submitStep initState "bogus_type" TaskPriority.medium none).system_metrics :=
  c10_metrics_frame.1 (submitStep initState "bogus_type" TaskPriority.medium none)
    busyPool (newTask initState "bogus_type" TaskPriority.medium none) [] rfl
    (by decide)

/-- C2 (amended): for every pinned name that is a key of the agent pool, the
selection policy returns that pool entry unconditionally — whatever its busy
flag or capabilities — and the dispatcher places the dequeued task into the
active registry assigned to that agent. -/
theorem c2_pin_override (pool : List (String × Agent)) (s : OrchState)
    {t : OrchTask} {rest : List OrchTask} {k : String} {a : Agent}
    (hq : s.queue = t :: rest) (hreq : t.required_agent = some k) (hk : k ≠ "")
    (hlook : pool.lookup k = some a) :
    selectAgent pool t = some a ∧
    (dispatchStep pool s).active_tasks =
      s.active_tasks ++ [(t.id, dispatchedRecord s t a)] ∧
    (dispatchedRecord s t a).assigned_agent = some a.name := by
  have hpin : requiredAgentSet t = true := by
    simp [requiredAgentSet, hreq, hk]
  have hsel : selectAgent pool t = some a := by
    simp [selectAgent, hpin, hreq, hlook]
  exact ⟨hsel, by simp [dispatchStep, hq, hsel], rfl⟩

/-- C2 counterexample: a task pinned to the name of no pool agent gets no
worker from the selection policy even though every agent is idle, so the
claim does not hold for every pinned name the caller supplies. -/
theorem c2_counterexample :
    (newTask initState "search_templates" TaskPriority.medium
        (some "ghost")).required_agent = some "ghost" ∧
    selectAgent startPool
      (newTask initState "search_templates" TaskPriority.medium
        (some "ghost")) = none ∧
    idleAgents startPool ≠ [] := by
  decide

/-- C2 witness: the amended theorem applied to a task pinned to the busy
template agent, which lacks the capability for the task's server-side type. -/
theorem c2_witness :
    selectAgent busyPool
        (newTask initState "import_template" TaskPriority.medium
          (some "template")) =
      some { templateAgent0 with is_busy := true } ∧
    (dispatchStep busyPool
        (submitStep initState "import_template" TaskPriority.medium
          (some "template"))).active_tasks =
      (submitStep initState "import_template" TaskPriority.medium
          (some "template")).active_tasks ++
        [((newTask initState "import_template" TaskPriority.medium
            (some "template")).id,
          dispatchedRecord
            (submitStep initState "import_template" TaskPriority.medium
              (some "template"))
            (newTask initState "import_template" TaskPriority.medium
              (some "template"))
            { templateAgent0 with is_busy := true })] ∧
    (dispatchedRecord
        (submitStep initState "import_template" TaskPriority.medium
          (some "template"))
        (newTask initState "import_template" TaskPriority.medium
          (some "template"))
        { templateAgent0 with is_busy := true }).assigned_agent =
      some { templateAgent0 with is_busy := true }.name := by
  refine c2_pin_override busyPool
    (submitStep initState "import_template" TaskPriority.medium
      (some "template"))
    rfl rfl ?_ (by decide)
  decide

/-- C6: with no pin set, a task whose type is in one of the four static
tables is routed to the table's pool entry, for every pool — hence
independently of any agent's busy flag or performance counters. -/
theorem c6_type_table (pool : List (String × Agent)) (t : OrchTask)
    (hpin : requiredAgentSet t = false) :
    (t.type ∈ templateTaskTypes → selectAgent pool t = pool.lookup "template") ∧
    (t.type ∈ serverTaskTypes → selectAgent pool t = pool.lookup "server") ∧
    (t.type ∈ coordinatorTaskTypes → selectAgent pool t = pool.lookup "coordinator") ∧
    (t.type ∈ monitorTaskTypes → selectAgent pool t = pool.lookup "monitor") := by
  refine ⟨?_, ?_, ?_, ?_⟩
  · intro h
    simp [selectAgent, hpin, h]
  · intro h
    have hno : t.type ∉ templateTaskTypes := by
      simp only [serverTaskTypes, List.mem_cons, List.not_mem_nil, or_false] at h
      rcases h with h | h | h | h | h | h <;>
        simp [templateTaskTypes, h]
    simp [selectAgent, hpin, h, hno]
  · intro h
    have hnt : t.type ∉ templateTaskTypes := by
      simp only [coordinatorTaskTypes, List.mem_cons, List.not_mem_nil, or_false] at h
      rcases h with h | h <;> simp [templateTaskTypes, h]
    have hns : t.type ∉ serverTaskTypes := by
      simp only [coordinatorTaskTypes, List.mem_cons, List.not_mem_nil, or_false] at h
      rcases h with h | h <;> simp [serverTaskTypes, h]
    simp [selectAgent, hpin, h, hnt, hns]
  · intro h
    have hnt : t.type ∉ templateTaskTypes := by
      simp only [monitorTaskTypes, List.mem_cons, List.not_mem_nil, or_false] at h
      rcases h with h | h <;> simp [templateTaskTypes, h]
    have hns : t.type ∉ serverTaskTypes := by
      simp only [monitorTaskTypes, List.mem_cons, List.not_mem_nil, or_false] at h
      rcases h with h | h <;> simp [serverTaskTypes, h]
    have hnc : t.type ∉ coordinatorTaskTypes := by
      simp only [monitorTaskTypes, List.mem_cons, List.not_mem_nil, or_false] at h
      rcases h with h | h <;> simp [coordinatorTaskTypes, h]
    simp [selectAgent, hpin, h, hnt, hns, hnc]

/-- C6 witness: a `search_templates` task routes to the template agent even
when every agent is busy, and a `system_health` task routes to the monitor
agent. -/
theorem c6_witness :
    selectAgent busyPool
        (newTask initState "search_templates" TaskPriority.medium none) =
      some { templateAgent0 with is_busy := true } ∧
    selectAgent startPool
        (newTask initState "system_health" TaskPriority.medium none) =
      some monitorAgent0 := by
  constructor
  · have h := (c6_type_table busyPool
      (newTask initState "search_templates" TaskPriority.medium none)
      (by decide)).1 (by decide)
    rw [h]
    decide
  · have h := (c6_type_table startPool
      (newTask initState "system_health" TaskPriority.medium none)
      (by decide)).2.2.2 (by decide)
    rw [h]
    decide

/-- The Python `max` fold returns an element of the candidate list. -/
lemma maxByCompleted_mem (a : Agent) (rest : List Agent) :
    maxByCompleted a rest ∈ a :: rest := by
  induction rest generalizing a with
  | nil => simp [maxByCompleted]
  | cons b bs ih =>
    simp only [maxByCompleted, List.foldl_cons]
    by_cases hb : b.tasks_completed > a.tasks_completed
    · rw [if_pos hb]
      have h := ih b
      simp only [List.mem_cons] at h ⊢
      tauto
    · rw [if_neg hb]
      have h := ih a
      simp only [List.mem_cons] at h ⊢
      tauto

/-- The Python `max` fold dominates every candidate's counter. -/
lemma maxByCompleted_ge (a : Agent) (rest : List Agent) :
    ∀ c ∈ a :: rest,
      c.tasks_completed ≤ (maxByCompleted a rest).tasks_completed := by
  induction rest generalizing a with
  | nil =>
    intro c hc
    simp only [List.mem_cons, List.not_mem_nil, or_false] at hc
    subst hc
    simp [maxByCompleted]
  | cons b bs ih =>
    intro c hc
    simp only [maxByCompleted, List.foldl_cons] at *
    by_cases hb : b.tasks_completed > a.tasks_completed
    · rw [if_pos hb]
      rcases List.mem_cons.1 hc with hc | hc
      · subst hc
        calc c.tasks_completed ≤ b.tasks_completed := by omega
          _ ≤ _ := ih b b (List.mem_cons_self b bs)
      · exact ih b c hc
    · rw [if_neg hb]
      rcases List.mem_cons.1 hc with hc | hc
      · rw [hc]
        exact ih a a (List.mem_cons_self a bs)
      · rcases List.mem_cons.1 hc with hc | hc
        · subst hc
          calc c.tasks_completed ≤ a.tasks_completed := by omega
            _ ≤ _ := ih a a (List.mem_cons_self a bs)
        · exact ih a c (List.mem_cons_of_mem a hc)

/-- C7: for an unknown-type unpinned task, the policy returns no agent when
every agent is busy, and otherwise returns an idle agent whose
`tasks_completed` counter is maximal among the idle agents. -/
theorem c7_idle_fallback (pool : List (String × Agent)) (t : OrchTask)
    (hpin : requiredAgentSet t = false)
    (h1 : t.type ∉ templateTaskTypes) (h2 : t.type ∉ serverTaskTypes)
    (h3 : t.type ∉ coordinatorTaskTypes) (h4 : t.type ∉ monitorTaskTypes) :
    (idleAgents pool = [] → selectAgent pool t = none) ∧
    (∀ a rest, idleAgents pool = a :: rest →
      selectAgent pool t = some (maxByCompleted a rest) ∧
      maxByCompleted a rest ∈ idleAgents pool ∧
      (maxByCompleted a rest).is_busy = false ∧
      ∀ c ∈ idleAgents pool,
        c.tasks_completed ≤ (maxByCompleted a rest).tasks_completed) := by
  constructor
  · intro hidle
    simp [selectAgent, hpin, h1, h2, h3, h4, hidle]
  · intro a rest hidle
    have hsel : selectAgent pool t = some (maxByCompleted a rest) := by
      simp [selectAgent, hpin, h1, h2, h3, h4, hidle]
    have hmem : maxByCompleted a rest ∈ idleAgents pool := by
      rw [hidle]
      exact maxByCompleted_mem a rest
    have hbusy : (maxByCompleted a rest).is_busy = false := by
      have hm2 : maxByCompleted a rest ∈
          (pool.map Prod.snd).filter (fun x => !x.is_busy) := hmem
      have := List.of_mem_filter hm2
      simpa using this
    refine ⟨hsel, hmem, hbusy, ?_⟩
    intro c hc
    rw [hidle] at hc
    exact maxByCompleted_ge a rest c hc

/-- C7 witness: with the template agent busy and the others idle, an
unknown-type task goes to an idle agent with the highest completed counter;
with all agents busy, no agent is selected. -/
theorem c7_witness :
    (selectAgent busyPool
        (newTask initState "bogus_type" TaskPriority.medium none) = none) ∧
    (selectAgent startPool
        (newTask initState "bogus_type" TaskPriority.medium none) =
      some templateAgent0) := by
  constructor
  · exact (c7_idle_fallback busyPool
      (newTask initState "bogus_type" TaskPriority.medium none)
      (by decide) (by decide) (by decide) (by decide) (by decide)).1 (by decide)
  · have h := ((c7_idle_fallback startPool
      (newTask initState "bogus_type" TaskPriority.medium none)
      (by decide) (by decide) (by decide) (by decide) (by decide)).2
        templateAgent0 [serverAgent0, coordinatorAgent0, monitorAgent0]
        (by decide)).1
    rw [h]
    decide

/-- The history trim keeps a suffix: eviction happens only at the front,
oldest entries first. -/
lemma trimHistory_suffix (l : List OrchTask) :
    List.IsSuffix (trimHistory l) l := by
  unfold trimHistory
  split
  · exact List.drop_suffix _ _
  · exact List.suffix_refl l

/-- One submit-and-fail-to-route round against a fully busy pool. -/
def pumpStep (s : OrchState) : OrchState :=
  dispatchStep busyPool (submitStep s "bogus_type" TaskPriority.medium none)

/-- The orchestrator state after `n` submit-and-fail-to-route rounds. -/
def pump : Nat → OrchState
  | 0 => initState
  | n + 1 => pumpStep (pump n)

/-- Every pumped state is reachable. -/
lemma pump_reachable : ∀ n, Reachable (pump n)
  | 0 => Reachable.refl
  | n + 1 =>
    Reachable.tail
      (Reachable.tail (pump_reachable n)
        (Step.submit (pump n) "bogus_type" TaskPriority.medium none))
      (Step.dispatch (submitStep (pump n) "bogus_type" TaskPriority.medium none)
        busyPool)

/-- An unknown-type unpinned task finds no agent in a fully busy pool. -/
lemma selectAgent_busyPool_bogus (s : OrchState) :
    selectAgent busyPool (newTask s "bogus_type" TaskPriority.medium none) =
      none := rfl

/-- After `n` rounds the queue is drained and the completed history holds
`n` routing-failed records: the routing-failure append never trims. -/
lemma pump_spec : ∀ n, (pump n).queue = [] ∧
    (pump n).completed_tasks.length = n := by
  intro n
  induction n with
  | zero => exact ⟨rfl, rfl⟩
  | succ n ih =>
    obtain ⟨hq, hlen⟩ := ih
    have hsq : (submitStep (pump n) "bogus_type" TaskPriority.medium none).queue =
        [newTask (pump n) "bogus_type" TaskPriority.medium none] := by
      simp [submitStep, hq]
    constructor
    · show (pumpStep (pump n)).queue = []
      simp [pumpStep, dispatchStep, hsq, selectAgent_busyPool_bogus]
    · show (pumpStep (pump n)).completed_tasks.length = n + 1
      simp [pumpStep, dispatchStep, hsq, hq, selectAgent_busyPool_bogus, submitStep,
        hlen]

/-- C3 counterexample: 1001 routing-failure appends give a reachable state
whose completed history holds 1001 entries — the routing-failure path does
not enforce the 1000-entry cap. -/
theorem c3_counterexample :
    Reachable (pump 1001) ∧ 1000 < (pump 1001).completed_tasks.length :=
  ⟨pump_reachable 1001, by rw [(pump_spec 1001).2]; omega⟩

/-- C3 (amended): on the normal `_execute_task` completion path (worker
returned a result, successful or not) the history append is trimmed: the
list ends at or under 1000 entries whatever length the history had before,
the fresh record is retained, and the result is a suffix of the untrimmed
append, so eviction is FIFO (oldest first).  The routing-failure and
exception-escape appends do not trim. -/
theorem c3_history_cap (s : OrchState) (t : OrchTask) (b : Bool) :
    (finishStep s t (ExecOutcome.ok b)).completed_tasks.length ≤ 1000 ∧
    finishedOk s t b ∈ (finishStep s t (ExecOutcome.ok b)).completed_tasks ∧
    List.IsSuffix (finishStep s t (ExecOutcome.ok b)).completed_tasks
      (s.completed_tasks ++ [finishedOk s t b]) := by
  refine ⟨?_, mem_trimHistory_last _ _, trimHistory_suffix _⟩
  show (trimHistory (s.completed_tasks ++ [finishedOk s t b])).length ≤ 1000
  by_cases hlen : (s.completed_tasks ++ [finishedOk s t b]).length > 1000
  · rw [trimHistory_length_of_gt hlen]
  · rw [trimHistory_eq_of_le (by omega)]
    omega

/-- C3 witness: the cap theorem applied to the sample task finishing. -/
theorem c3_witness :
    (finishStep sampleS2 sampleT1 (ExecOutcome.ok true)).completed_tasks.length ≤
        1000 ∧
      finishedOk sampleS2 sampleT1 true ∈
        (finishStep sampleS2 sampleT1 (ExecOutcome.ok true)).completed_tasks ∧
      List.IsSuffix
        (finishStep sampleS2 sampleT1 (ExecOutcome.ok true)).completed_tasks
        (sampleS2.completed_tasks ++ [finishedOk sampleS2 sampleT1 true]) :=
  c3_history_cap sampleS2 sampleT1 true

/-- C4 (amended): TemplateAgent and ServerAgent set `is_busy` (and
`current_task`) inside the `try` block and always clear both in the
`finally` block, on the result path and on the exception path alike;
CoordinatorAgent and MonitorAgent never touch their agent state, so their
busy flag is never set during execution. -/
theorem c4_busy_discipline (a : Agent) (t : OrchTask)
    (body : Except String ExecResult) :
    (execDuring a t).is_busy = true ∧
    (execDuring a t).current_task = some t.id ∧
    (templateAgentExec a t body).1.is_busy = false ∧
    (templateAgentExec a t body).1.current_task = none ∧
    (serverAgentExec a t body).1.is_busy = false ∧
    (serverAgentExec a t body).1.current_task = none ∧
    (coordinatorAgentExec a t).1 = a ∧
    (monitorAgentExec a t).1 = a :=
  ⟨rfl, rfl, rfl, rfl, rfl, rfl, rfl, rfl⟩

/-- C4 counterexample: executing a task on the CoordinatorAgent (and the
MonitorAgent) leaves the agent record untouched with `is_busy = false`
throughout — the busy flag is never set for these two workers. -/
theorem c4_counterexample :
    (coordinatorAgentExec coordinatorAgent0 sampleT0).1 = coordinatorAgent0 ∧
    coordinatorAgent0.is_busy = false ∧
    (coordinatorAgentExec coordinatorAgent0 sampleT0).2.success = true ∧
    (monitorAgentExec monitorAgent0 sampleT0).1 = monitorAgent0 ∧
    monitorAgent0.is_busy = false := by
  decide
